import Mathlib

/-!
Verification of the image-reconstruction engine of this repository
(module with denormalizeBox / smartInpaint / drawAdaptiveText / processCanvas).

Shallow embedding conventions:
* JS numbers are modelled as exact rationals: every comparison and every
  arithmetic operation the engine performs is order-theoretic or exact at the
  scales involved, and the specification states the same arithmetic.
* The canvas is a Surface: integer-indexed RGB pixel grid given as a function,
  plus its dimensions.  Canvas getImageData reads and fillRect writes are
  modelled pixel-exactly (fillRect clips to the canvas, alpha is constant and
  omitted).  Glyph rasterisation by fillText and text-width measurement by
  measureText are environment-provided (the browser), so they enter as
  parameters: a measure function (font size and string to width) and a
  rasteriser (draw command applied to a surface).
* JS string helpers (trim, split, regex test, includes) are re-implemented
  over lists of characters with JS semantics.  JS split by the empty string
  separates UTF-16 units; we model code points, which agrees on all text
  without surrogate pairs.
-/

attribute [local semireducible] Rat.mul Rat.add Rat.sub Rat.inv Rat.ofScientific

/-- An RGB pixel; channel values are integers (0..255 in any real surface). -/
structure Pixel where
  r : ℤ
  g : ℤ
  b : ℤ
deriving DecidableEq

/-- The mutable raster target: dimensions plus a total pixel map. -/
structure Surface where
  width : ℕ
  height : ℕ
  pix : ℤ → ℤ → Pixel

/-- From types.ts. -/
inductive TargetLanguage where
  | ENGLISH
  | CHINESE
  | RUSSIAN
deriving DecidableEq

/-- From types.ts: category of an annotated region. -/
inductive Category where
  | TEXT
  | TECHNICAL
deriving DecidableEq

/-- From types.ts: AnnotationItem with box_2d = (ymin, xmin, ymax, xmax) on the
0-1000 scale. -/
structure AnnotationItem where
  originalText : String
  translatedText : String
  box_2d : ℚ × ℚ × ℚ × ℚ
  category : Category
deriving DecidableEq

/-- From types.ts: ProcessingConfig. -/
structure ProcessingConfig where
  targetLang : TargetLanguage
  minFontSize : ℚ
  maxFontSize : ℚ
  padding : ℚ
deriving DecidableEq

/-- A region in pixel space, as produced by denormalizeBox. -/
structure PixelRegion where
  x : ℚ
  y : ℚ
  w : ℚ
  h : ℚ
deriving DecidableEq

/-- The set of characters matched by the JS regex class backslash-s and
trimmed by String.prototype.trim: WhiteSpace plus LineTerminator. -/
def jsWhitespaceChar (c : Char) : Bool :=
  c.toNat = 32 || (9 ≤ c.toNat && c.toNat ≤ 13) || c.toNat = 160 ||
  c.toNat = 5760 || (8192 ≤ c.toNat && c.toNat ≤ 8202) || c.toNat = 8232 ||
  c.toNat = 8233 || c.toNat = 8239 || c.toNat = 8287 || c.toNat = 12288 ||
  c.toNat = 65279

/-- JS String.prototype.trim: strip leading and trailing whitespace. -/
def jsTrim (s : String) : String :=
  String.mk (((s.data.dropWhile jsWhitespaceChar).reverse.dropWhile
    jsWhitespaceChar).reverse)

/-- JS Math.round: round half toward positive infinity.  The engine only
applies it to nonnegative channel means. -/
def jsRound (q : ℚ) : ℤ := ⌊q + 1 / 2⌋

/-- Split a character list at every occurrence of the separator character,
keeping empty pieces, as JS String.prototype.split with a one-character
separator does on the code-unit sequence. -/
def splitChars (sep : Char) : List Char → List (List Char)
  | [] => [[]]
  | c :: rest =>
    let r := splitChars sep rest
    if c = sep then [] :: r
    else
      match r with
      | [] => [[c]]
      | l :: ls => (c :: l) :: ls

/-- JS String.prototype.split with a single-character separator. -/
def jsSplit (sep : Char) (s : String) : List String :=
  (splitChars sep s.data).map String.mk

/-- The JS regex test of drawAdaptiveText: optional leading whitespace run,
then either one or more digits followed by a period, or a dash, or a bullet.
Since no alternative starts with a whitespace character and no digit is
followed in the pattern by a digit class, greedy matching equals maximal
munch, so the regex is equivalent to this scan. -/
def jsListPattern (t : String) : Bool :=
  match t.data.dropWhile jsWhitespaceChar with
  | [] => false
  | c :: cs =>
    c = '-' || c = '•' ||
    (c.isDigit &&
      match cs.dropWhile Char.isDigit with
      | '.' :: _ => true
      | _ => false)

/-- denormalizeBox: converts 0-1000 normalized coordinates to pixel
coordinates.  Pure linear scaling, no clamping. -/
def denormalizeBox (box : ℚ × ℚ × ℚ × ℚ) (width height : ℚ) : PixelRegion :=
  let ymin := box.1
  let xmin := box.2.1
  let ymax := box.2.2.1
  let xmax := box.2.2.2
  { y := ymin / 1000 * height
    x := xmin / 1000 * width
    h := (ymax - ymin) / 1000 * height
    w := (xmax - xmin) / 1000 * width }

/-- The repair zone of smartInpaint: rx = max(0, floor(x - pad)),
ry = max(0, floor(y - pad)), rw = floor(w + pad * 2), rh = floor(h + pad * 2). -/
structure RepairRect where
  rx : ℤ
  ry : ℤ
  rw : ℤ
  rh : ℤ
deriving DecidableEq

/-- The repair zone computed at the top of smartInpaint. -/
def inpaintRect (x y w h pad : ℚ) : RepairRect :=
  { rx := max 0 ⌊x - pad⌋
    ry := max 0 ⌊y - pad⌋
    rw := ⌊w + pad * 2⌋
    rh := ⌊h + pad * 2⌋ }

/-- Integer coordinates a, a+1, ..., a+len-1 (empty when len is not
positive). -/
def intRange (a len : ℤ) : List ℤ :=
  (List.range len.toNat).map (fun k => a + (k : ℤ))

/-- getImageDataSafe of smartInpaint: returns the row-major pixel block, or
none when the requested rectangle is not entirely within canvas bounds
(sx < 0, sy < 0, sx + sw > width or sy + sh > height). -/
def getImageDataSafe (s : Surface) (sx sy sw sh : ℤ) : Option (List Pixel) :=
  if sx < 0 || sy < 0 || (s.width : ℤ) < sx + sw || (s.height : ℤ) < sy + sh
  then none
  else some ((intRange sy sh).map (fun j =>
    (intRange sx sw).map (fun i => s.pix i j))).flatten

/-- The brightness filter of smartInpaint: keep a pixel when the unweighted
mean of its channels exceeds 120. -/
def brightPixel (p : Pixel) : Bool :=
  decide ((120 : ℚ) < ((p.r : ℚ) + (p.g : ℚ) + (p.b : ℚ)) / 3)

/-- processData of smartInpaint: accumulate channel sums and the count over
the retained (bright) pixels of one sample; a skipped sample (null) leaves
the accumulator unchanged. -/
def processData (acc : ℤ × ℤ × ℤ × ℕ) (imgData : Option (List Pixel)) :
    ℤ × ℤ × ℤ × ℕ :=
  match imgData with
  | none => acc
  | some data =>
    data.foldl (fun a p =>
      if brightPixel p then (a.1 + p.r, a.2.1 + p.g, a.2.2.1 + p.b, a.2.2.2 + 1)
      else a) acc

/-- The four border samples of smartInpaint (top, bottom, left, right), with
the fixed sample thickness 3 of the source. -/
def samplesOf (s : Surface) (r : RepairRect) : List (Option (List Pixel)) :=
  [ getImageDataSafe s r.rx (r.ry - 3) r.rw 3,
    getImageDataSafe s r.rx (r.ry + r.rh) r.rw 3,
    getImageDataSafe s (r.rx - 3) r.ry 3 r.rh,
    getImageDataSafe s (r.rx + r.rw) r.ry 3 r.rh ]

/-- Channel sums and count accumulated over all four samples. -/
def inpaintSums (s : Surface) (r : RepairRect) : ℤ × ℤ × ℤ × ℕ :=
  (samplesOf s r).foldl processData (0, 0, 0, 0)

/-- The fill color smartInpaint computes: channel-wise rounded mean of the
retained pixels, pure white when none was retained. -/
def inpaintColor (s : Surface) (r : RepairRect) : Pixel :=
  if 0 < (inpaintSums s r).2.2.2 then
    { r := jsRound (((inpaintSums s r).1 : ℚ) / ((inpaintSums s r).2.2.2 : ℚ))
      g := jsRound (((inpaintSums s r).2.1 : ℚ) / ((inpaintSums s r).2.2.2 : ℚ))
      b := jsRound (((inpaintSums s r).2.2.1 : ℚ) / ((inpaintSums s r).2.2.2 : ℚ)) }
  else
    { r := 255, g := 255, b := 255 }

/-- Whether pixel (i, j) is written by fillRect over the repair zone on a
canvas of the given dimensions (canvas fillRect clips to the canvas). -/
def inFillRect (r : RepairRect) (width height : ℕ) (i j : ℤ) : Bool :=
  (r.rx ≤ i && i < r.rx + r.rw && r.ry ≤ j && j < r.ry + r.rh) &&
  (0 ≤ i && i < (width : ℤ) && 0 ≤ j && j < (height : ℤ))

/-- smartInpaint: compute the repair zone, sample its border, and fill the
zone with the computed background color. -/
def smartInpaint (s : Surface) (x y w h padding : ℚ) : Surface :=
  let r := inpaintRect x y w h padding
  let c := inpaintColor s r
  { s with pix := fun i j => if inFillRect r s.width s.height i j then c else s.pix i j }

/-- Modelled from the spec, for comparison with the source computation: one
border strip, read row-major, contributing its pixels when its coordinates
lie entirely within surface bounds and skipped entirely (no samples)
otherwise. -/
def specStrip (s : Surface) (sx sy sw sh : ℤ) : List Pixel :=
  if 0 ≤ sx ∧ 0 ≤ sy ∧ sx + sw ≤ (s.width : ℤ) ∧ sy + sh ≤ (s.height : ℤ)
  then ((intRange sy sh).map (fun j =>
    (intRange sx sw).map (fun i => s.pix i j))).flatten
  else []

/-- Modelled from the spec: a sampled pixel is discarded when its
brightness, the unweighted mean of red, green and blue, is at most 120. -/
def specKeep (p : Pixel) : Bool :=
  !(decide (((p.r : ℚ) + (p.g : ℚ) + (p.b : ℚ)) / 3 ≤ 120))

/-- Modelled from the spec, for comparison with the source computation: the
retained samples - the four strips of thickness 3 immediately outside the
padded rectangle (top, bottom, left, right), each skipped entirely when out
of bounds, with the dark pixels discarded. -/
def specRetained (s : Surface) (r : RepairRect) : List Pixel :=
  (specStrip s r.rx (r.ry - 3) r.rw 3 ++
   specStrip s r.rx (r.ry + r.rh) r.rw 3 ++
   specStrip s (r.rx - 3) r.ry 3 r.rh ++
   specStrip s (r.rx + r.rw) r.ry 3 r.rh).filter specKeep

/-- Modelled from the spec, for comparison with the source computation: the
fill color as the spec words it - the channel-wise mean of the retained
pixels rounded per channel, or pure white when no pixel was retained. -/
def specFillColor (s : Surface) (r : RepairRect) : Pixel :=
  if specRetained s r = [] then { r := 255, g := 255, b := 255 }
  else
    { r := jsRound ((((specRetained s r).map Pixel.r).sum : ℚ) /
        ((specRetained s r).length : ℚ))
      g := jsRound ((((specRetained s r).map Pixel.g).sum : ℚ) /
        ((specRetained s r).length : ℚ))
      b := jsRound ((((specRetained s r).map Pixel.b).sum : ℚ) /
        ((specRetained s r).length : ℚ)) }

/-- The tokenization of one paragraph in computeLines: split on spaces when
the paragraph contains a space, else split into individual characters. -/
def tokensOf (p : String) : List String :=
  if p.data.contains ' ' then jsSplit ' ' p
  else p.data.map (fun c => String.mk [c])

/-- The separator re-inserted between tokens when joining a line. -/
def sepOf (p : String) : String :=
  if p.data.contains ' ' then " " else ""

/-- The greedy packing loop of computeLines over the tokens of one paragraph
after the first: extend the current line while the measured test line stays
within w; otherwise, if the single token alone is wider than w the candidate
size fails immediately (none), else emit the current line and start a new one
with the token.  The terminal case emits the final current line. -/
def wrapLoop (mw : String → ℚ) (w : ℚ) (sep : String) (cur : String) :
    List String → Option (List String)
  | [] => some [cur]
  | token :: rest =>
    if mw (cur ++ sep ++ token) ≤ w then
      wrapLoop mw w sep (cur ++ sep ++ token) rest
    else if w < mw token then none
    else
      match wrapLoop mw w sep token rest with
      | none => none
      | some ls => some (cur :: ls)

/-- Wrapping of one nonempty paragraph: seed the loop with the first token. -/
def paraWrap (mw : String → ℚ) (w : ℚ) (p : String) : Option (List String) :=
  match tokensOf p with
  | [] => some []
  | t0 :: rest => wrapLoop mw w (sepOf p) t0 rest

/-- One step of the paragraph fold of computeLines: a failure (none) is
absorbing - the source returns the empty list from computeLines as soon as
any paragraph has an over-wide token; empty paragraphs are skipped. -/
def paraStep (mw : String → ℚ) (w : ℚ) (acc : Option (List String))
    (p : String) : Option (List String) :=
  match acc with
  | none => none
  | some ls =>
    if p = "" then some ls
    else
      match paraWrap mw w p with
      | none => none
      | some pls => some (ls ++ pls)

/-- computeLines of drawAdaptiveText: split the text on explicit newlines,
wrap each nonempty paragraph greedily at the measured width, concatenate the
wrapped lines, and collapse any failure to the empty list. -/
def computeLines (m : ℚ → String → ℚ) (currentFontSize w : ℚ)
    (text : String) : List String :=
  let paragraphs := jsSplit '\n' text
  (paragraphs.foldl (paraStep (m currentFontSize) w) (some [])).getD []

/-- The acceptance test of the sizing loop: lines were generated and the
total block height lines * (fontSize * 1.2) fits within h. -/
def acceptSize (m : ℚ → String → ℚ) (w h : ℚ) (text : String) (fs : ℚ) :
    Bool :=
  let lines := computeLines m fs w text
  decide (lines ≠ []) && decide ((lines.length : ℚ) * (fs * 1.2) ≤ h)

/-- The iterative sizing loop of drawAdaptiveText, fuel-indexed: while
fontSize is at least minFontSize, stop at the first accepted size, else
decrement by one.  The fuel only bounds the iteration count; sizeSearch
passes fuel exceeding the number of iterations of the source loop. -/
def sizeLoop (accept : ℚ → Bool) (minFontSize : ℚ) : ℕ → ℚ → Option ℚ
  | 0, _ => none
  | fuel + 1, fs =>
    if minFontSize ≤ fs then
      if accept fs then some fs else sizeLoop accept minFontSize fuel (fs - 1)
    else none

/-- The sizing search from maxFontSize down to minFontSize. -/
def sizeSearch (accept : ℚ → Bool) (minFontSize maxFontSize : ℚ) :
    Option ℚ :=
  sizeLoop accept minFontSize (⌈maxFontSize - minFontSize⌉ + 1).toNat
    maxFontSize

/-- The result of the sizing-and-alignment phase of drawAdaptiveText. -/
structure TextLayout where
  fontSize : ℚ
  lines : List String
  alignLeft : Bool
  usedFallback : Bool
  drawX : ℚ
deriving DecidableEq

/-- drawAdaptiveText, phase 1: alignment detection (newline or list pattern
means left alignment), the sizing loop, and on failure the fallback to
minFontSize with its recomputed wrap, last resort the raw text. -/
def drawAdaptiveTextLayout (m : ℚ → String → ℚ) (text : String)
    (x y w h : ℚ) (config : ProcessingConfig) : TextLayout :=
  let alignLeft := text.data.contains '\n' || jsListPattern text
  let drawX := if alignLeft then x else x + w / 2
  match sizeSearch (acceptSize m w h text) config.minFontSize
      config.maxFontSize with
  | some fs =>
    { fontSize := fs, lines := computeLines m fs w text, alignLeft,
      usedFallback := false, drawX }
  | none =>
    let ls := computeLines m config.minFontSize w text
    { fontSize := config.minFontSize,
      lines := if ls = [] then [text] else ls, alignLeft,
      usedFallback := true, drawX }

/-- One fillText invocation: the string, the font size set on the context,
the alignment, and the point handed to fillText. -/
structure DrawCmd where
  text : String
  fontSize : ℚ
  alignLeft : Bool
  px : ℚ
  py : ℚ
deriving DecidableEq, Inhabited

/-- drawAdaptiveText, phase 2: the sequence of fillText commands - vertical
centering of the block, per-line vertical step of fontSize * 1.2, and the
baseline correction fontSize * 0.1 subtracted from each line's y. -/
def drawCmdsOf (m : ℚ → String → ℚ) (text : String) (x y w h : ℚ)
    (config : ProcessingConfig) : List DrawCmd :=
  let L := drawAdaptiveTextLayout m text x y w h config
  let lineHeight := L.fontSize * 1.2
  let totalTextBlockHeight := (L.lines.length : ℚ) * lineHeight
  let startY := y + (h - totalTextBlockHeight) / 2 + lineHeight / 2
  L.lines.enum.map (fun q =>
    { text := q.2, fontSize := L.fontSize, alignLeft := L.alignLeft,
      px := L.drawX,
      py := startY + (q.1 : ℚ) * lineHeight - L.fontSize * 0.1 })

/-- drawAdaptiveText: apply the environment's rasteriser to each fillText
command in order. -/
def drawAdaptiveText (raster : DrawCmd → Surface → Surface)
    (m : ℚ → String → ℚ) (s : Surface) (text : String) (x y w h : ℚ)
    (config : ProcessingConfig) : Surface :=
  (drawCmdsOf m text x y w h config).foldl (fun t cmd => raster cmd t) s

/-- The filter of processCanvas: strictly ignore TECHNICAL items, ignore
unchanged text (trimmed comparison), ignore empty translations.  A missing
text field is falsy in JS and trims to the empty string either way. -/
def keepItem (item : AnnotationItem) : Bool :=
  if item.category = Category.TECHNICAL then false
  else
    let original := jsTrim item.originalText
    let translated := jsTrim item.translatedText
    if original = translated then false
    else if translated = "" then false
    else true

/-- The filtered item list of processCanvas, in input order. -/
def itemsToProcess (annotations : List AnnotationItem) :
    List AnnotationItem :=
  annotations.filter keepItem

/-- Trace events of one pipeline invocation. -/
inductive Op where
  | erase (x y w h pad : ℚ)
  | draw (text : String) (x y w h : ℚ)
deriving DecidableEq

/-- The erase event of one item. -/
def eraseOpOf (width height pad : ℚ) (item : AnnotationItem) : Op :=
  let c := denormalizeBox item.box_2d width height
  Op.erase c.x c.y c.w c.h pad

/-- The draw event of one item. -/
def drawOpOf (width height : ℚ) (item : AnnotationItem) : Op :=
  let c := denormalizeBox item.box_2d width height
  Op.draw item.translatedText c.x c.y c.w c.h

/-- One forEach pass of processCanvas over the filtered items, threading the
surface and appending one trace event per item. -/
def passFold (step : AnnotationItem → Surface → Surface)
    (opOf : AnnotationItem → Op) (items : List AnnotationItem)
    (init : Surface × List Op) : Surface × List Op :=
  items.foldl (fun acc item => (step item acc.1, acc.2 ++ [opOf item])) init

/-- The body of the first forEach of processCanvas for one item: denormalize
its box and run smartInpaint with the configured padding. -/
def eraseStep (config : ProcessingConfig) (width height : ℚ)
    (item : AnnotationItem) (t : Surface) : Surface :=
  smartInpaint t (denormalizeBox item.box_2d width height).x
    (denormalizeBox item.box_2d width height).y
    (denormalizeBox item.box_2d width height).w
    (denormalizeBox item.box_2d width height).h config.padding

/-- The repair rectangle the erase step of one item fills. -/
def eraseRectOf (config : ProcessingConfig) (width height : ℚ)
    (item : AnnotationItem) : RepairRect :=
  inpaintRect (denormalizeBox item.box_2d width height).x
    (denormalizeBox item.box_2d width height).y
    (denormalizeBox item.box_2d width height).w
    (denormalizeBox item.box_2d width height).h config.padding

/-- The body of the second forEach of processCanvas for one item: denormalize
its box and run drawAdaptiveText on its translated text. -/
def drawStep (raster : DrawCmd → Surface → Surface) (m : ℚ → String → ℚ)
    (config : ProcessingConfig) (width height : ℚ)
    (item : AnnotationItem) (t : Surface) : Surface :=
  drawAdaptiveText raster m t item.translatedText
    (denormalizeBox item.box_2d width height).x
    (denormalizeBox item.box_2d width height).y
    (denormalizeBox item.box_2d width height).w
    (denormalizeBox item.box_2d width height).h config

/-- The fillText commands the draw step of one item issues. -/
def drawCmdsOfItem (m : ℚ → String → ℚ) (config : ProcessingConfig)
    (width height : ℚ) (item : AnnotationItem) : List DrawCmd :=
  drawCmdsOf m item.translatedText
    (denormalizeBox item.box_2d width height).x
    (denormalizeBox item.box_2d width height).y
    (denormalizeBox item.box_2d width height).w
    (denormalizeBox item.box_2d width height).h config

/-- The body of processCanvas after the context check: filter, then the
inpaint pass over every filtered item, then the text pass over every
filtered item, both using the canvas dimensions read once at entry. -/
def processCanvasCore (m : ℚ → String → ℚ)
    (raster : DrawCmd → Surface → Surface) (s : Surface)
    (annotations : List AnnotationItem) (config : ProcessingConfig) :
    Surface × List Op :=
  let width := (s.width : ℚ)
  let height := (s.height : ℚ)
  let its := itemsToProcess annotations
  let pass1 := passFold (eraseStep config width height)
    (eraseOpOf width height config.padding) its (s, [])
  passFold (drawStep raster m config width height)
    (drawOpOf width height) its pass1

/-- processCanvas: when the canvas yields no 2D context the invocation
returns before touching the surface and produces no events; otherwise run
the two passes. -/
def processCanvas (m : ℚ → String → ℚ)
    (raster : DrawCmd → Surface → Surface) (s : Surface) (ctxOk : Bool)
    (annotations : List AnnotationItem) (config : ProcessingConfig) :
    Surface × List Op :=
  if ctxOk then processCanvasCore m raster s annotations config else (s, [])

/-! ## Concrete instances used in closed evaluations

These fix the environment-provided parameters at simple computable values:
measure functions, a rasteriser that paints nothing (with the empty
footprint), small surfaces and annotation items. -/

/-- A measure function proportional to string length: ten units per
character, independent of the font size. -/
def mLen : ℚ → String → ℚ := fun _ t => (t.length : ℚ) * 10

/-- A measure function under which only the string consisting of the single
character A is wide (100 units); every other string measures zero. -/
def mA : ℚ → String → ℚ := fun _ t => if t = "A" then 100 else 0

/-- A measure function that is constantly one unit. -/
def mOne : ℚ → String → ℚ := fun _ _ => 1

/-- A rasteriser that paints nothing; its footprint is empty, so the
empty-footprint hypothesis holds for the constantly-false footprint. -/
def idRaster : DrawCmd → Surface → Surface := fun _ t => t

/-- A well-formed configuration: font sizes 2..4, padding 1. -/
def cfgW : ProcessingConfig := ⟨TargetLanguage.ENGLISH, 2, 4, 1⟩

/-- An inverted configuration (minFontSize exceeds maxFontSize). -/
def cfgBadW : ProcessingConfig := ⟨TargetLanguage.ENGLISH, 5, 3, 1⟩

/-- Pure white. -/
def whiteP : Pixel := ⟨255, 255, 255⟩

/-- Pure black. -/
def blackP : Pixel := ⟨0, 0, 0⟩

/-- A 20 by 20 surface, white everywhere except one black pixel at
(10, 10). -/
def cexSurface : Surface :=
  { width := 20, height := 20,
    pix := fun i j => if i = 10 ∧ j = 10 then blackP else whiteP }

/-- A TEXT item with a changed translation; its box denormalizes on a
20 by 20 surface to the region x 8, y 8, w 4, h 4, whose padded repair
rectangle is rx 7, ry 7, rw 6, rh 6. -/
def cexText : AnnotationItem :=
  { originalText := "a", translatedText := "b",
    box_2d := (400, 400, 600, 600), category := Category.TEXT }

/-- A TECHNICAL item whose box denormalizes on a 20 by 20 surface to the
region x 9, y 9, w 2, h 2, which contains the pixel (10, 10) and lies
inside the repair rectangle of cexText. -/
def cexTech : AnnotationItem :=
  { originalText := "x", translatedText := "y",
    box_2d := (450, 450, 550, 550), category := Category.TECHNICAL }

/-! ## General lemmas about the passes -/

theorem passFold_eq (step : AnnotationItem → Surface → Surface)
    (opOf : AnnotationItem → Op) :
    ∀ (items : List AnnotationItem) (s : Surface) (ops : List Op),
    passFold step opOf items (s, ops) =
      (items.foldl (fun t it => step it t) s, ops ++ items.map opOf) := by
  intro items
  induction items with
  | nil => intro s ops; simp [passFold]
  | cons a l ih =>
    intro s ops
    simp only [passFold, List.foldl_cons, List.map_cons]
    have h := ih (step a s) (ops ++ [opOf a])
    simp only [passFold] at h
    rw [h]
    simp

theorem smartInpaint_pix (s : Surface) (x y w h pad : ℚ) (i j : ℤ) :
    (smartInpaint s x y w h pad).pix i j =
      if inFillRect (inpaintRect x y w h pad) s.width s.height i j
      then inpaintColor s (inpaintRect x y w h pad) else s.pix i j := rfl

theorem smartInpaint_width (s : Surface) (x y w h pad : ℚ) :
    (smartInpaint s x y w h pad).width = s.width := rfl

theorem smartInpaint_height (s : Surface) (x y w h pad : ℚ) :
    (smartInpaint s x y w h pad).height = s.height := rfl

/-! ## Lemmas about the sizing loop -/

theorem sizeLoop_eq_some (accept : ℚ → Bool) (minF : ℚ) :
    ∀ (fuel : ℕ) (fs res : ℚ), sizeLoop accept minF fuel fs = some res →
      accept res = true ∧ minF ≤ res ∧
      ∃ k : ℕ, res = fs - (k : ℚ) ∧
        ∀ k' : ℕ, k' < k → accept (fs - (k' : ℚ)) = false := by
  intro fuel
  induction fuel with
  | zero => intro fs res h; simp [sizeLoop] at h
  | succ n ih =>
    intro fs res h
    simp only [sizeLoop] at h
    by_cases h1 : minF ≤ fs
    · rw [if_pos h1] at h
      by_cases h2 : accept fs = true
      · rw [if_pos h2] at h
        have hres : fs = res := Option.some.inj h
        subst hres
        refine ⟨h2, h1, 0, by push_cast; ring, ?_⟩
        intro k' hk'
        exact absurd hk' (Nat.not_lt_zero k')
      · rw [if_neg h2] at h
        obtain ⟨ha, hm, k, hk, hall⟩ := ih (fs - 1) res h
        refine ⟨ha, hm, k + 1, ?_, ?_⟩
        · rw [hk]; push_cast; ring
        · intro k' hk'
          cases k' with
          | zero =>
            have : accept fs = false := Bool.not_eq_true _ |>.mp h2
            simpa using this
          | succ j =>
            have hj := hall j (Nat.lt_of_succ_lt_succ hk')
            have harg : fs - 1 - (j : ℚ) = fs - ((j : ℕ) + 1 : ℕ) := by
              push_cast; ring
            rw [harg] at hj
            exact hj
    · rw [if_neg h1] at h
      simp at h

theorem sizeLoop_eq_none (accept : ℚ → Bool) (minF : ℚ) :
    ∀ (fuel : ℕ) (fs : ℚ), sizeLoop accept minF fuel fs = none →
      fs - minF < (fuel : ℚ) →
      ∀ k : ℕ, minF ≤ fs - (k : ℚ) → accept (fs - (k : ℚ)) = false := by
  intro fuel
  induction fuel with
  | zero =>
    intro fs _ hb k hk
    exfalso
    have h0 : (0 : ℚ) ≤ (k : ℚ) := Nat.cast_nonneg k
    push_cast at hb
    linarith
  | succ n ih =>
    intro fs h hb k hk
    simp only [sizeLoop] at h
    by_cases h1 : minF ≤ fs
    · rw [if_pos h1] at h
      by_cases h2 : accept fs = true
      · rw [if_pos h2] at h; simp at h
      · rw [if_neg h2] at h
        cases k with
        | zero =>
          have : accept fs = false := Bool.not_eq_true _ |>.mp h2
          simpa using this
        | succ j =>
          have hb2 : (fs - 1) - minF < (n : ℚ) := by push_cast at hb ⊢; linarith
          have hk2 : minF ≤ (fs - 1) - (j : ℚ) := by push_cast at hk ⊢; linarith
          have hj := ih (fs - 1) h hb2 j hk2
          have harg : fs - 1 - (j : ℚ) = fs - ((j : ℕ) + 1 : ℕ) := by
            push_cast; ring
          rw [harg] at hj
          exact hj
    · exfalso
      have h0 : (0 : ℚ) ≤ (k : ℚ) := Nat.cast_nonneg k
      exact h1 (le_trans hk (by linarith))

theorem fuel_exceeds (minF maxF : ℚ) :
    maxF - minF < (((⌈maxF - minF⌉ + 1).toNat : ℕ) : ℚ) := by
  rcases le_or_lt 0 (⌈maxF - minF⌉ + 1) with hn | hn
  · have h1 : ((⌈maxF - minF⌉ + 1).toNat : ℤ) = ⌈maxF - minF⌉ + 1 :=
      Int.toNat_of_nonneg hn
    have h2 : (maxF - minF) ≤ ((⌈maxF - minF⌉ : ℤ) : ℚ) := Int.le_ceil _
    have h3 : (((⌈maxF - minF⌉ + 1).toNat : ℕ) : ℚ) =
        ((⌈maxF - minF⌉ : ℤ) : ℚ) + 1 := by
      exact_mod_cast congrArg (fun z : ℤ => (z : ℚ)) h1
    linarith
  · have h1 : (⌈maxF - minF⌉ + 1).toNat = 0 := by omega
    have h2 : (maxF - minF) ≤ ((⌈maxF - minF⌉ : ℤ) : ℚ) := Int.le_ceil _
    have h3 : ((⌈maxF - minF⌉ : ℤ) : ℚ) ≤ -1 := by
      have : ⌈maxF - minF⌉ ≤ -2 := by omega
      calc ((⌈maxF - minF⌉ : ℤ) : ℚ) ≤ ((-2 : ℤ) : ℚ) := by exact_mod_cast this
        _ ≤ -1 := by norm_num
    rw [h1]
    push_cast
    linarith

theorem sizeSearch_eq_some (accept : ℚ → Bool) (minF maxF res : ℚ)
    (h : sizeSearch accept minF maxF = some res) :
    accept res = true ∧ minF ≤ res ∧ res ≤ maxF ∧
    ∃ k : ℕ, res = maxF - (k : ℚ) ∧
      ∀ k' : ℕ, k' < k → accept (maxF - (k' : ℚ)) = false := by
  obtain ⟨ha, hm, k, hk, hall⟩ := sizeLoop_eq_some accept minF _ maxF res h
  refine ⟨ha, hm, ?_, k, hk, hall⟩
  have h0 : (0 : ℚ) ≤ (k : ℚ) := Nat.cast_nonneg k
  rw [hk]; linarith

theorem sizeSearch_eq_none (accept : ℚ → Bool) (minF maxF : ℚ)
    (h : sizeSearch accept minF maxF = none) :
    ∀ k : ℕ, minF ≤ maxF - (k : ℚ) → accept (maxF - (k : ℚ)) = false :=
  sizeLoop_eq_none accept minF _ maxF h (fuel_exceeds minF maxF)

theorem sizeSearch_none_of_lt (accept : ℚ → Bool) (minF maxF : ℚ)
    (h : maxF < minF) : sizeSearch accept minF maxF = none := by
  unfold sizeSearch
  cases hf : (⌈maxF - minF⌉ + 1).toNat with
  | zero => simp [sizeLoop]
  | succ n => simp [sizeLoop, not_le.mpr h]

theorem acceptSize_true_iff (m : ℚ → String → ℚ) (w h : ℚ) (text : String)
    (fs : ℚ) :
    acceptSize m w h text fs = true ↔
      computeLines m fs w text ≠ [] ∧
      ((computeLines m fs w text).length : ℚ) * (fs * 1.2) ≤ h := by
  unfold acceptSize
  simp [Bool.and_eq_true, decide_eq_true_eq]

/-! ## Lemmas about the layout phase -/

theorem layout_eq_of_some (m : ℚ → String → ℚ) (text : String) (x y w h : ℚ)
    (config : ProcessingConfig) (fs : ℚ)
    (hs : sizeSearch (acceptSize m w h text) config.minFontSize
      config.maxFontSize = some fs) :
    drawAdaptiveTextLayout m text x y w h config =
      { fontSize := fs, lines := computeLines m fs w text,
        alignLeft := text.data.contains '\n' || jsListPattern text,
        usedFallback := false,
        drawX := if text.data.contains '\n' || jsListPattern text then x
          else x + w / 2 } := by
  unfold drawAdaptiveTextLayout
  rw [hs]

theorem layout_eq_of_none (m : ℚ → String → ℚ) (text : String) (x y w h : ℚ)
    (config : ProcessingConfig)
    (hs : sizeSearch (acceptSize m w h text) config.minFontSize
      config.maxFontSize = none) :
    drawAdaptiveTextLayout m text x y w h config =
      { fontSize := config.minFontSize,
        lines := if computeLines m config.minFontSize w text = [] then [text]
          else computeLines m config.minFontSize w text,
        alignLeft := text.data.contains '\n' || jsListPattern text,
        usedFallback := true,
        drawX := if text.data.contains '\n' || jsListPattern text then x
          else x + w / 2 } := by
  unfold drawAdaptiveTextLayout
  rw [hs]

/-- Claim C5: when no candidate size in the range produces a fitting wrap -
including the inverted case minFontSize greater than maxFontSize, on which
the engine must not crash - the fallback uses exactly minFontSize and its
recomputed wrap, rendering the raw unwrapped string as a single line when
that wrap is empty; a non-fallback choice always lies between minFontSize
and maxFontSize, and the line list handed to rendering is never empty, so
rendering always completes. -/
theorem spec_c5 (m : ℚ → String → ℚ) (text : String) (x y w h : ℚ)
    (config : ProcessingConfig) :
    ((drawAdaptiveTextLayout m text x y w h config).usedFallback = false →
      config.minFontSize ≤ (drawAdaptiveTextLayout m text x y w h config).fontSize ∧
      (drawAdaptiveTextLayout m text x y w h config).fontSize ≤ config.maxFontSize) ∧
    ((drawAdaptiveTextLayout m text x y w h config).usedFallback = true →
      (drawAdaptiveTextLayout m text x y w h config).fontSize = config.minFontSize ∧
      (drawAdaptiveTextLayout m text x y w h config).lines =
        (if computeLines m config.minFontSize w text = [] then [text]
         else computeLines m config.minFontSize w text)) ∧
    (config.maxFontSize < config.minFontSize →
      (drawAdaptiveTextLayout m text x y w h config).usedFallback = true) ∧
    (drawAdaptiveTextLayout m text x y w h config).lines ≠ [] := by
  cases hs : sizeSearch (acceptSize m w h text) config.minFontSize
      config.maxFontSize with
  | some fs =>
    rw [layout_eq_of_some m text x y w h config fs hs]
    obtain ⟨ha, hmin, hmax, _⟩ := sizeSearch_eq_some _ _ _ _ hs
    refine ⟨fun _ => ⟨hmin, hmax⟩, fun hk => by simp at hk, fun hlt => ?_, ?_⟩
    · rw [sizeSearch_none_of_lt _ _ _ hlt] at hs
      simp at hs
    · exact ((acceptSize_true_iff m w h text fs).mp ha).1
  | none =>
    rw [layout_eq_of_none m text x y w h config hs]
    refine ⟨fun hk => by simp at hk, fun _ => ⟨rfl, rfl⟩, fun _ => rfl, ?_⟩
    by_cases hc : computeLines m config.minFontSize w text = []
    · simp [hc]
    · simp [hc]

/-- Witness for C5: an inverted configuration (minFontSize 5, maxFontSize 3)
takes the fallback at exactly minFontSize, and a well-formed configuration
yields a chosen size within its bounds. -/
theorem spec_c5_witness :
    ((drawAdaptiveTextLayout mLen "ab" 0 0 20 10 cfgBadW).usedFallback = true ∧
     (drawAdaptiveTextLayout mLen "ab" 0 0 20 10 cfgBadW).fontSize = 5) ∧
    ((2 : ℚ) ≤ (drawAdaptiveTextLayout mLen "ab" 0 0 20 10 cfgW).fontSize ∧
     (drawAdaptiveTextLayout mLen "ab" 0 0 20 10 cfgW).fontSize ≤ 4) := by
  constructor
  · have h1 := (spec_c5 mLen "ab" 0 0 20 10 cfgBadW).2.2.1 (by decide)
    have h2 := ((spec_c5 mLen "ab" 0 0 20 10 cfgBadW).2.1 h1).1
    exact ⟨h1, h2⟩
  · exact (spec_c5 mLen "ab" 0 0 20 10 cfgW).1 (by decide)

/-- Claim C3 (amended): a non-fallback choice is the largest size reachable
by whole-unit descent from maxFontSize and not below minFontSize whose wrap
is accepted - the wrap is nonempty and its block height lineCount times
fontSize times 1.2 fits within h; every size visited before it was
rejected.  Acceptance does not require every wrapped line to fit within w:
the first token of a paragraph is never width-checked (see the
counterexample). -/
theorem spec_c3 (m : ℚ → String → ℚ) (text : String) (x y w h : ℚ)
    (config : ProcessingConfig)
    (hnf : (drawAdaptiveTextLayout m text x y w h config).usedFallback = false) :
    acceptSize m w h text
      (drawAdaptiveTextLayout m text x y w h config).fontSize = true ∧
    config.minFontSize ≤ (drawAdaptiveTextLayout m text x y w h config).fontSize ∧
    (drawAdaptiveTextLayout m text x y w h config).fontSize ≤ config.maxFontSize ∧
    (drawAdaptiveTextLayout m text x y w h config).lines =
      computeLines m (drawAdaptiveTextLayout m text x y w h config).fontSize w text ∧
    ∃ k : ℕ, (drawAdaptiveTextLayout m text x y w h config).fontSize =
        config.maxFontSize - (k : ℚ) ∧
      ∀ k' : ℕ, k' < k →
        acceptSize m w h text (config.maxFontSize - (k' : ℚ)) = false := by
  cases hs : sizeSearch (acceptSize m w h text) config.minFontSize
      config.maxFontSize with
  | some fs =>
    rw [layout_eq_of_some m text x y w h config fs hs]
    obtain ⟨ha, hmin, hmax, k, hk, hall⟩ := sizeSearch_eq_some _ _ _ _ hs
    exact ⟨ha, hmin, hmax, rfl, k, hk, hall⟩
  | none =>
    rw [layout_eq_of_none m text x y w h config hs] at hnf
    simp at hnf

/-- Witness for C3 (amended): with the length-proportional measure, text ab
in a 20 by 10 region and sizes 2..4, the descent accepts immediately at
maxFontSize. -/
theorem spec_c3_witness :
    acceptSize mLen 20 10 "ab"
      (drawAdaptiveTextLayout mLen "ab" 0 0 20 10 cfgW).fontSize = true ∧
    cfgW.minFontSize ≤ (drawAdaptiveTextLayout mLen "ab" 0 0 20 10 cfgW).fontSize ∧
    (drawAdaptiveTextLayout mLen "ab" 0 0 20 10 cfgW).fontSize ≤ cfgW.maxFontSize ∧
    (drawAdaptiveTextLayout mLen "ab" 0 0 20 10 cfgW).lines =
      computeLines mLen (drawAdaptiveTextLayout mLen "ab" 0 0 20 10 cfgW).fontSize
        20 "ab" ∧
    ∃ k : ℕ, (drawAdaptiveTextLayout mLen "ab" 0 0 20 10 cfgW).fontSize =
        cfgW.maxFontSize - (k : ℚ) ∧
      ∀ k' : ℕ, k' < k →
        acceptSize mLen 20 10 "ab" (cfgW.maxFontSize - (k' : ℚ)) = false :=
  spec_c3 mLen "ab" 0 0 20 10 cfgW (by decide)

/-- Counterexample to C3 as stated: under the measure mA the single
wrapped line A measures 100, wider than the region width 50, at every
candidate size 4, 3, 2, so no size in range satisfies the claim's
requirement that every wrapped line fit within w - by the claim the engine
would have to fall back - yet the search still chooses size 4 without
fallback, and its chosen wrap contains an over-wide line. -/
theorem spec_c3_counterexample :
    (drawAdaptiveTextLayout mA "A" 0 0 50 10 cfgW).usedFallback = false ∧
    (drawAdaptiveTextLayout mA "A" 0 0 50 10 cfgW).fontSize = 4 ∧
    (drawAdaptiveTextLayout mA "A" 0 0 50 10 cfgW).lines = ["A"] ∧
    computeLines mA 4 50 "A" = ["A"] ∧ (50 : ℚ) < mA 4 "A" ∧
    computeLines mA 3 50 "A" = ["A"] ∧ (50 : ℚ) < mA 3 "A" ∧
    computeLines mA 2 50 "A" = ["A"] ∧ (50 : ℚ) < mA 2 "A" := by decide

/-! ## Lemmas about the greedy wrap -/

theorem wrapLoop_none_of_wide (mw : String → ℚ) (w : ℚ) (sep : String)
    (Hm : ∀ a b : String, mw b ≤ mw (a ++ b)) :
    ∀ (rest : List String) (cur t : String), t ∈ rest → w < mw t →
      wrapLoop mw w sep cur rest = none := by
  intro rest
  induction rest with
  | nil => intro cur t ht _; simp at ht
  | cons t0 rs ih =>
    intro cur t ht hw
    rcases List.mem_cons.mp ht with rfl | hmem
    · have h1 : mw t ≤ mw (cur ++ sep ++ t) := Hm (cur ++ sep) t
      have h2 : ¬ mw (cur ++ sep ++ t) ≤ w := by
        intro hc
        exact absurd (le_trans h1 hc) (not_le.mpr hw)
      simp only [wrapLoop]
      rw [if_neg h2, if_pos hw]
    · simp only [wrapLoop]
      by_cases hc : mw (cur ++ sep ++ t0) ≤ w
      · rw [if_pos hc]
        exact ih (cur ++ sep ++ t0) t hmem hw
      · rw [if_neg hc]
        by_cases hc2 : w < mw t0
        · rw [if_pos hc2]
        · rw [if_neg hc2, ih t0 t hmem hw]

theorem foldl_paraStep_none (mw : String → ℚ) (w : ℚ) :
    ∀ l : List String, l.foldl (paraStep mw w) none = none := by
  intro l
  induction l with
  | nil => rfl
  | cons q rs ih => rw [List.foldl_cons]; exact ih

theorem foldl_paraStep_fail (mw : String → ℚ) (w : ℚ) (p : String)
    (hpne : p ≠ "") (hfail : paraWrap mw w p = none) :
    ∀ (l : List String) (acc : Option (List String)), p ∈ l →
      l.foldl (paraStep mw w) acc = none := by
  intro l
  induction l with
  | nil => intro acc h; simp at h
  | cons q rs ih =>
    intro acc hmem
    rcases List.mem_cons.mp hmem with rfl | hm
    · have hstep : paraStep mw w acc p = none := by
        cases acc with
        | none => rfl
        | some ls => simp [paraStep, hpne, hfail]
      rw [List.foldl_cons, hstep, foldl_paraStep_none]
    · rw [List.foldl_cons]
      exact ih _ hm

theorem computeLines_eq_nil (m : ℚ → String → ℚ) (fs w : ℚ) (text p : String)
    (hp : p ∈ jsSplit '\n' text) (hpne : p ≠ "")
    (hfail : paraWrap (m fs) w p = none) : computeLines m fs w text = [] := by
  show (List.foldl (paraStep (m fs) w) (some []) (jsSplit '\n' text)).getD [] = []
  rw [foldl_paraStep_fail (m fs) w p hpne hfail _ _ hp]
  rfl

/-- Claim C6 (amended): provided the width measure is monotone under
extension on the left (a suffix never measures more than the whole string),
a candidate size whose tokenisation contains an over-wide token at any
position after the first within its paragraph is rejected outright - the
wrap computation returns no lines.  The first token of a paragraph is
exempt: the source seeds the current line with it and only width-checks
subsequent tokens, so an over-wide first token is emitted as an overflowing
line instead (see the counterexample). -/
theorem spec_c6 (m : ℚ → String → ℚ) (fs w : ℚ) (text p t : String)
    (Hm : ∀ a b : String, m fs b ≤ m fs (a ++ b))
    (hp : p ∈ jsSplit '\n' text) (hpne : p ≠ "")
    (ht : t ∈ (tokensOf p).tail) (hw : w < m fs t) :
    computeLines m fs w text = [] := by
  apply computeLines_eq_nil m fs w text p hp hpne
  unfold paraWrap
  cases htok : tokensOf p with
  | nil => rw [htok] at ht; simp at ht
  | cons t0 rest =>
    rw [htok] at ht
    simp only [List.tail_cons] at ht
    exact wrapLoop_none_of_wide (m fs) w (sepOf p) Hm rest t0 t ht hw

/-- Witness for C6 (amended): with the length-proportional measure, the
second token B of the paragraph A-space-B measures 10, wider than the
region width 5, and the wrap at that size indeed returns no lines. -/
theorem spec_c6_witness :
    ((5 : ℚ) < mLen 3 "B") ∧ computeLines mLen 3 5 "A B" = [] := by
  refine ⟨by decide, ?_⟩
  apply spec_c6 mLen 3 5 "A B" "A B" "B"
  · intro a b
    simp only [mLen, String.length_append]
    have h0 : (0 : ℚ) ≤ (a.length : ℚ) := Nat.cast_nonneg _
    push_cast
    linarith
  · decide
  · decide
  · decide
  · decide

/-- Counterexample to C6 as stated: the single token A - the first token of
its paragraph - measures 100, wider than the region width 50, yet the wrap
computation returns the line A rather than no lines: a paragraph's first
token is never width-checked. -/
theorem spec_c6_counterexample :
    (50 : ℚ) < mA 6 "A" ∧ computeLines mA 6 50 "A" = ["A"] := by decide

/-- Claim C7: the layout is left-aligned exactly when the text contains a
line break or matches the list-item pattern (optional leading whitespace,
then a digit run followed by a period, or a dash, or a bullet); otherwise it
is centered, and every fillText command is issued at the region's left edge
x when left-aligned and at the horizontal center x plus w over two
otherwise. -/
theorem spec_c7 (m : ℚ → String → ℚ) (text : String) (x y w h : ℚ)
    (config : ProcessingConfig) :
    ((drawAdaptiveTextLayout m text x y w h config).alignLeft =
      (text.data.contains '\n' || jsListPattern text)) ∧
    ((drawAdaptiveTextLayout m text x y w h config).drawX =
      (if text.data.contains '\n' || jsListPattern text then x
       else x + w / 2)) ∧
    ((drawCmdsOf m text x y w h config).map (fun c => c.px) =
      List.replicate (drawAdaptiveTextLayout m text x y w h config).lines.length
        (drawAdaptiveTextLayout m text x y w h config).drawX) := by
  refine ⟨?_, ?_, ?_⟩
  · cases hs : sizeSearch (acceptSize m w h text) config.minFontSize
        config.maxFontSize with
    | some fs => rw [layout_eq_of_some m text x y w h config fs hs]
    | none => rw [layout_eq_of_none m text x y w h config hs]
  · cases hs : sizeSearch (acceptSize m w h text) config.minFontSize
        config.maxFontSize with
    | some fs => rw [layout_eq_of_some m text x y w h config fs hs]
    | none => rw [layout_eq_of_none m text x y w h config hs]
  · unfold drawCmdsOf
    rw [List.map_map]
    have : ((fun c : DrawCmd => c.px) ∘ (fun q : ℕ × String =>
        ({ text := q.2,
           fontSize := (drawAdaptiveTextLayout m text x y w h config).fontSize,
           alignLeft := (drawAdaptiveTextLayout m text x y w h config).alignLeft,
           px := (drawAdaptiveTextLayout m text x y w h config).drawX,
           py := y + (h - ((drawAdaptiveTextLayout m text x y w h config).lines.length : ℚ) *
               ((drawAdaptiveTextLayout m text x y w h config).fontSize * 1.2)) / 2 +
             (drawAdaptiveTextLayout m text x y w h config).fontSize * 1.2 / 2 +
             (q.1 : ℚ) * ((drawAdaptiveTextLayout m text x y w h config).fontSize * 1.2) -
             (drawAdaptiveTextLayout m text x y w h config).fontSize * 0.1 } : DrawCmd))) =
        (fun _ => (drawAdaptiveTextLayout m text x y w h config).drawX) := rfl
    rw [this, List.map_const', List.enum_length]

/-- Claim C9: when the canvas yields no usable 2D context the pipeline
invocation aborts before mutating anything - the surface is returned
unchanged and no erase or draw event occurs. -/
theorem spec_c9 (m : ℚ → String → ℚ) (raster : DrawCmd → Surface → Surface)
    (s : Surface) (annotations : List AnnotationItem)
    (config : ProcessingConfig) :
    processCanvas m raster s false annotations config = (s, []) := rfl

/-- Claim C2: one pipeline invocation runs the erase operation over every
filtered region, in list order, before it runs the text-drawing operation
over any of them: the event trace is exactly the erase events of the
filtered items in order followed by their draw events in order, so no draw
precedes any erase. -/
theorem spec_c2 (m : ℚ → String → ℚ) (raster : DrawCmd → Surface → Surface)
    (s : Surface) (annotations : List AnnotationItem)
    (config : ProcessingConfig) :
    (processCanvas m raster s true annotations config).2 =
      (itemsToProcess annotations).map
        (eraseOpOf (s.width : ℚ) (s.height : ℚ) config.padding) ++
      (itemsToProcess annotations).map
        (drawOpOf (s.width : ℚ) (s.height : ℚ)) := by
  show (processCanvasCore m raster s annotations config).2 = _
  unfold processCanvasCore
  rw [passFold_eq]
  rw [passFold_eq]
  simp

/-- Claim C10 (amended): the rectangle filled by the eraser always has width
exactly floor(w + 2 padding) and height exactly floor(h + 2 padding) -
clamping the origin at zero never shrinks it - and when x is less than the
padding (respectively y), the clamped origin is zero, so the filled area
extends strictly further right (respectively down) than the unclamped
rectangle with origin floor(x - padding) would.  It need not extend beyond
x + w + padding, because flooring the extent can lose up to one pixel (see
the counterexample). -/
theorem spec_c10 (x y w h pad : ℚ) :
    (inpaintRect x y w h pad).rw = ⌊w + pad * 2⌋ ∧
    (inpaintRect x y w h pad).rh = ⌊h + pad * 2⌋ ∧
    (x < pad → (inpaintRect x y w h pad).rx = 0 ∧
      ⌊x - pad⌋ + (inpaintRect x y w h pad).rw <
        (inpaintRect x y w h pad).rx + (inpaintRect x y w h pad).rw) ∧
    (y < pad → (inpaintRect x y w h pad).ry = 0 ∧
      ⌊y - pad⌋ + (inpaintRect x y w h pad).rh <
        (inpaintRect x y w h pad).ry + (inpaintRect x y w h pad).rh) := by
  refine ⟨rfl, rfl, ?_, ?_⟩
  · intro hx
    have hneg : ⌊x - pad⌋ < 0 := by
      rw [Int.floor_lt]
      push_cast
      linarith
    have hrx : (inpaintRect x y w h pad).rx = 0 := by
      show max 0 ⌊x - pad⌋ = 0
      omega
    refine ⟨hrx, ?_⟩
    rw [hrx]
    omega
  · intro hy
    have hneg : ⌊y - pad⌋ < 0 := by
      rw [Int.floor_lt]
      push_cast
      linarith
    have hry : (inpaintRect x y w h pad).ry = 0 := by
      show max 0 ⌊y - pad⌋ = 0
      omega
    refine ⟨hry, ?_⟩
    rw [hry]
    omega

/-- Witness for C10 (amended): region origin 0 with padding 1 - the origin
clamps to 0 while width stays floor(3 + 2). -/
theorem spec_c10_witness :
    (inpaintRect 0 0 3 3 1).rw = ⌊(3 : ℚ) + 1 * 2⌋ ∧
    ((0 : ℚ) < 1 ∧ (inpaintRect 0 0 3 3 1).rx = 0) := by
  refine ⟨(spec_c10 0 0 3 3 1).1, by decide, ?_⟩
  exact ((spec_c10 0 0 3 3 1).2.2.1 (by decide)).1

/-- Counterexample to C10 as stated: with x = 99/100, w = 19/20 and
padding 1 the origin is clamped (x is less than the padding), but the
filled area's right edge 0 + floor(19/20 + 2) = 2 does not extend further
right than x + w + padding = 2.94: flooring loses the fractional parts. -/
theorem spec_c10_counterexample :
    (99 / 100 : ℚ) < 1 ∧
    (((inpaintRect (99 / 100) 0 (19 / 20) 1 1).rx +
      (inpaintRect (99 / 100) 0 (19 / 20) 1 1).rw : ℤ) : ℚ) ≤
      99 / 100 + 19 / 20 + 1 := by decide

/-- Claim C8 (amended): denormalizeBox performs pure linear scaling and no
clamping, so for out-of-range or inverted boxes the derived PixelRegion can
violate the bounds invariant (see the counterexample).  Malformed boxes are
still tolerated without failure: the eraser clamps its rectangle origin at
zero on both axes, and every pixel it mutates lies strictly inside surface
bounds. -/
theorem spec_c8 (s : Surface) (x y w h pad : ℚ) :
    0 ≤ (inpaintRect x y w h pad).rx ∧ 0 ≤ (inpaintRect x y w h pad).ry ∧
    ∀ i j : ℤ, (smartInpaint s x y w h pad).pix i j ≠ s.pix i j →
      0 ≤ i ∧ i < (s.width : ℤ) ∧ 0 ≤ j ∧ j < (s.height : ℤ) := by
  refine ⟨le_max_left 0 _, le_max_left 0 _, ?_⟩
  intro i j hne
  by_cases hc : inFillRect (inpaintRect x y w h pad) s.width s.height i j = true
  · unfold inFillRect at hc
    simp only [Bool.and_eq_true, decide_eq_true_eq] at hc
    tauto
  · exfalso
    apply hne
    rw [smartInpaint_pix, if_neg]
    intro hcc
    exact hc hcc

/-- Witness for C8 (amended): on the 20 by 20 surface the erase of the
region x 8, y 8, w 4, h 4 with padding 1 repaints the black pixel (10, 10)
with the white border mean, and that mutated pixel is within bounds. -/
theorem spec_c8_witness :
    ((smartInpaint cexSurface 8 8 4 4 1).pix 10 10 ≠ cexSurface.pix 10 10) ∧
    (0 ≤ (10 : ℤ) ∧ (10 : ℤ) < (cexSurface.width : ℤ) ∧
     0 ≤ (10 : ℤ) ∧ (10 : ℤ) < (cexSurface.height : ℤ)) :=
  ⟨by decide, (spec_c8 cexSurface 8 8 4 4 1).2.2 10 10 (by decide)⟩

/-- Counterexample to C8 as stated: denormalizeBox applies no clamping, so
the out-of-range box (ymin 0, xmin 1100, ymax 100, xmax 1200) on a
1000 by 1000 surface yields x + w = 1200, beyond the surface width, and the
box (ymin 0, xmin -100, ymax 100, xmax 0) yields x = -100, violating
0 ≤ x. -/
theorem spec_c8_counterexample :
    (1000 : ℚ) < (denormalizeBox (0, 1100, 100, 1200) 1000 1000).x +
      (denormalizeBox (0, 1100, 100, 1200) 1000 1000).w ∧
    (denormalizeBox (0, -100, 100, 0) 1000 1000).x < 0 := by decide

/-! ## Lemmas about the sampling sums -/

theorem foldl_bright (data : List Pixel) :
    ∀ a : ℤ × ℤ × ℤ × ℕ,
    data.foldl (fun a p =>
      if brightPixel p then (a.1 + p.r, a.2.1 + p.g, a.2.2.1 + p.b, a.2.2.2 + 1)
      else a) a =
    (a.1 + ((data.filter brightPixel).map Pixel.r).sum,
     a.2.1 + ((data.filter brightPixel).map Pixel.g).sum,
     a.2.2.1 + ((data.filter brightPixel).map Pixel.b).sum,
     a.2.2.2 + (data.filter brightPixel).length) := by
  induction data with
  | nil => intro a; simp
  | cons p l ih =>
    intro a
    rw [List.foldl_cons, List.filter_cons]
    cases hb : brightPixel p with
    | false => simp only [hb, if_false, Bool.false_eq_true]; rw [ih]
    | true =>
      simp only [hb, if_true]
      rw [ih]
      simp [add_assoc, Nat.add_comm, Nat.add_assoc, Nat.add_left_comm]

theorem foldl_processData (L : List (Option (List Pixel))) :
    ∀ a : ℤ × ℤ × ℤ × ℕ,
    L.foldl processData a =
      (a.1 + (((((L.map (fun o => o.getD [])).flatten)).filter
          brightPixel).map Pixel.r).sum,
       a.2.1 + (((((L.map (fun o => o.getD [])).flatten)).filter
          brightPixel).map Pixel.g).sum,
       a.2.2.1 + (((((L.map (fun o => o.getD [])).flatten)).filter
          brightPixel).map Pixel.b).sum,
       a.2.2.2 + ((((L.map (fun o => o.getD [])).flatten)).filter
          brightPixel).length) := by
  induction L with
  | nil => intro a; simp
  | cons o rest ih =>
    intro a
    rw [List.foldl_cons]
    cases o with
    | none =>
      have h0 : processData a none = a := rfl
      rw [h0, ih]
      simp
    | some data =>
      have h0 : processData a (some data) =
          (a.1 + ((data.filter brightPixel).map Pixel.r).sum,
           a.2.1 + ((data.filter brightPixel).map Pixel.g).sum,
           a.2.2.1 + ((data.filter brightPixel).map Pixel.b).sum,
           a.2.2.2 + (data.filter brightPixel).length) := foldl_bright data a
      rw [h0, ih]
      simp [List.filter_append, add_assoc, Nat.add_assoc]

theorem specStrip_eq_getD (s : Surface) (sx sy sw sh : ℤ) :
    specStrip s sx sy sw sh = (getImageDataSafe s sx sy sw sh).getD [] := by
  unfold specStrip getImageDataSafe
  by_cases hD : (sx < 0 || sy < 0 || (s.width : ℤ) < sx + sw ||
      (s.height : ℤ) < sy + sh) = true
  · rw [if_pos hD]
    simp only [Bool.or_eq_true, decide_eq_true_eq] at hD
    rw [if_neg]
    · rfl
    · intro hC
      omega
  · rw [if_neg hD]
    simp only [Bool.or_eq_true, decide_eq_true_eq, not_or, not_lt] at hD
    rw [if_pos]
    · rfl
    · omega

theorem specKeep_eq_bright (p : Pixel) : specKeep p = brightPixel p := by
  unfold specKeep brightPixel
  rw [← decide_not]
  exact decide_eq_decide.mpr (by rw [not_le])

/-- Claim C4: the fill color of a region erasure equals the spec's
description - sample the four thickness-3 strips immediately outside the
padded rectangle, skip entirely any strip that falls outside surface
bounds, discard every pixel of brightness at most 120, and take the
channel-wise rounded mean of what remains, falling back to pure white when
nothing remains. -/
theorem spec_c4 (s : Surface) (r : RepairRect) :
    inpaintColor s r = specFillColor s r := by
  have hret : specRetained s r =
      (((samplesOf s r).map (fun o => o.getD [])).flatten).filter
        brightPixel := by
    unfold specRetained samplesOf
    simp only [List.map_cons, List.map_nil, List.flatten_cons,
      List.flatten_nil, List.append_nil, specStrip_eq_getD]
    rw [List.filter_congr (fun p _ => specKeep_eq_bright p)]
    simp [List.append_assoc]
  unfold inpaintColor inpaintSums specFillColor
  rw [foldl_processData, hret]
  simp only [zero_add]
  by_cases hnil :
      ((((samplesOf s r).map (fun o => o.getD [])).flatten).filter
        brightPixel) = []
  · rw [hnil]
    simp
  · rw [if_neg hnil, if_pos (List.length_pos.mpr hnil)]

/-! ## Preservation lemmas for the two passes -/

theorem eraseFold_dims (config : ProcessingConfig) (width height : ℚ) :
    ∀ (items : List AnnotationItem) (s : Surface),
      (items.foldl (fun t it => eraseStep config width height it t) s).width
        = s.width ∧
      (items.foldl (fun t it => eraseStep config width height it t) s).height
        = s.height := by
  intro items
  induction items with
  | nil => intro s; exact ⟨rfl, rfl⟩
  | cons a l ih =>
    intro s
    rw [List.foldl_cons]
    have h := ih (eraseStep config width height a s)
    exact ⟨h.1.trans rfl, h.2.trans rfl⟩

theorem eraseFold_pix (config : ProcessingConfig) (width height : ℚ) :
    ∀ (items : List AnnotationItem) (s : Surface) (i j : ℤ),
      (∀ item ∈ items,
        inFillRect (eraseRectOf config width height item) s.width s.height
          i j = false) →
      (items.foldl (fun t it => eraseStep config width height it t) s).pix i j
        = s.pix i j := by
  intro items
  induction items with
  | nil => intro s i j _; rfl
  | cons a l ih =>
    intro s i j hout
    rw [List.foldl_cons]
    have ha := hout a (List.mem_cons_self a l)
    have hstep : (eraseStep config width height a s).pix i j = s.pix i j := by
      unfold eraseStep
      rw [smartInpaint_pix, if_neg]
      intro hcc
      unfold eraseRectOf at ha
      simp [ha] at hcc
    have hrec := ih (eraseStep config width height a s) i j
      (fun item hm => hout item (List.mem_cons_of_mem a hm))
    exact hrec.trans hstep

theorem rasterFold_pix (raster : DrawCmd → Surface → Surface)
    (footprint : DrawCmd → ℤ → ℤ → Bool)
    (Hr : ∀ cmd t i j, footprint cmd i j = false →
      (raster cmd t).pix i j = t.pix i j) :
    ∀ (L : List DrawCmd) (s : Surface) (i j : ℤ),
      (∀ cmd ∈ L, footprint cmd i j = false) →
      (L.foldl (fun t cmd => raster cmd t) s).pix i j = s.pix i j := by
  intro L
  induction L with
  | nil => intro s i j _; rfl
  | cons c l ih =>
    intro s i j hout
    rw [List.foldl_cons]
    have hstep := Hr c s i j (hout c (List.mem_cons_self c l))
    have hrec := ih (raster c s) i j
      (fun cmd hm => hout cmd (List.mem_cons_of_mem c hm))
    exact hrec.trans hstep

theorem drawFold_pix (raster : DrawCmd → Surface → Surface)
    (m : ℚ → String → ℚ) (config : ProcessingConfig) (width height : ℚ)
    (footprint : DrawCmd → ℤ → ℤ → Bool)
    (Hr : ∀ cmd t i j, footprint cmd i j = false →
      (raster cmd t).pix i j = t.pix i j) :
    ∀ (items : List AnnotationItem) (s : Surface) (i j : ℤ),
      (∀ item ∈ items, ∀ cmd ∈ drawCmdsOfItem m config width height item,
        footprint cmd i j = false) →
      (items.foldl (fun t it => drawStep raster m config width height it t)
        s).pix i j = s.pix i j := by
  intro items
  induction items with
  | nil => intro s i j _; rfl
  | cons a l ih =>
    intro s i j hout
    rw [List.foldl_cons]
    have hstep : (drawStep raster m config width height a s).pix i j
        = s.pix i j := by
      unfold drawStep drawAdaptiveText
      exact rasterFold_pix raster footprint Hr _ s i j
        (fun cmd hm => hout a (List.mem_cons_self a l) cmd hm)
    have hrec := ih (drawStep raster m config width height a s) i j
      (fun item hm => hout item (List.mem_cons_of_mem a hm))
    exact hrec.trans hstep

/-- Claim C1 (amended): the pipeline processes a region if and only if its
category is TEXT, its trimmed translatedText is non-empty, and its trimmed
translatedText differs from its trimmed originalText.  A region failing the
filter is itself never erased or drawn, and every pixel that no processed
region's padded fill rectangle covers and no drawn text touches is left
byte-identical; but a pixel inside a failing region's box can still change
when a processed region's padded rectangle or drawn text overlaps that box
(see the counterexample), so the filter alone does not guarantee
byte-identity inside failing regions. -/
theorem spec_c1 (m : ℚ → String → ℚ) (raster : DrawCmd → Surface → Surface)
    (footprint : DrawCmd → ℤ → ℤ → Bool) (s : Surface)
    (annotations : List AnnotationItem) (config : ProcessingConfig)
    (Hr : ∀ cmd t i j, footprint cmd i j = false →
      (raster cmd t).pix i j = t.pix i j) :
    (∀ item : AnnotationItem,
      item ∈ itemsToProcess annotations ↔
        item ∈ annotations ∧ item.category = Category.TEXT ∧
        jsTrim item.translatedText ≠ "" ∧
        jsTrim item.translatedText ≠ jsTrim item.originalText) ∧
    (∀ i j : ℤ,
      (∀ item ∈ itemsToProcess annotations,
        inFillRect (eraseRectOf config (s.width : ℚ) (s.height : ℚ) item)
          s.width s.height i j = false) →
      (∀ item ∈ itemsToProcess annotations,
        ∀ cmd ∈ drawCmdsOfItem m config (s.width : ℚ) (s.height : ℚ) item,
          footprint cmd i j = false) →
      (processCanvas m raster s true annotations config).1.pix i j
        = s.pix i j) := by
  constructor
  · intro item
    unfold itemsToProcess
    rw [List.mem_filter]
    have hk : keepItem item = true ↔
        (item.category = Category.TEXT ∧ jsTrim item.translatedText ≠ "" ∧
         jsTrim item.translatedText ≠ jsTrim item.originalText) := by
      unfold keepItem
      cases hcat : item.category with
      | TECHNICAL => simp
      | TEXT =>
        simp only [reduceCtorEq, if_false]
        by_cases h1 : jsTrim item.originalText = jsTrim item.translatedText
        · simp [h1]
        · rw [if_neg h1]
          by_cases h2 : jsTrim item.translatedText = ""
          · simp [h2]
          · simp [h2]
            exact fun hc => h1 (hc.symm)
    rw [hk]
  · intro i j hout hfoot
    show (processCanvasCore m raster s annotations config).1.pix i j = s.pix i j
    unfold processCanvasCore
    rw [passFold_eq, passFold_eq]
    have hdims := eraseFold_dims config (s.width : ℚ) (s.height : ℚ)
      (itemsToProcess annotations) s
    have hdraw := drawFold_pix raster m config (s.width : ℚ) (s.height : ℚ)
      footprint Hr (itemsToProcess annotations)
      ((itemsToProcess annotations).foldl
        (fun t it => eraseStep config (s.width : ℚ) (s.height : ℚ) it t) s)
      i j (fun item hm cmd hc => hfoot item hm cmd hc)
    have herase := eraseFold_pix config (s.width : ℚ) (s.height : ℚ)
      (itemsToProcess annotations) s i j hout
    exact hdraw.trans herase

/-- Witness for C1 (amended): in the two-item list, the changed TEXT item is
processed while the TECHNICAL item is not, and the pixel (0, 0), which no
processed fill rectangle covers and which the nothing-painting rasteriser's
empty footprint never touches, is byte-identical after the run. -/
theorem spec_c1_witness :
    (cexText ∈ itemsToProcess [cexText, cexTech] ∧
     ¬ cexTech ∈ itemsToProcess [cexText, cexTech]) ∧
    (processCanvas mOne idRaster cexSurface true [cexText, cexTech]
      cfgW).1.pix 0 0 = cexSurface.pix 0 0 := by
  constructor
  · constructor
    · exact ((spec_c1 mOne idRaster (fun _ _ _ => false) cexSurface
        [cexText, cexTech] cfgW (fun _ _ _ _ _ => rfl)).1 cexText).mpr
        (by decide)
    · intro hmem
      exact absurd (((spec_c1 mOne idRaster (fun _ _ _ => false) cexSurface
        [cexText, cexTech] cfgW (fun _ _ _ _ _ => rfl)).1 cexTech).mp hmem)
        (by decide)
  · exact (spec_c1 mOne idRaster (fun _ _ _ => false) cexSurface
      [cexText, cexTech] cfgW (fun _ _ _ _ _ => rfl)).2 0 0
      (by decide) (by decide)

/-- Counterexample to C1 as stated: the TECHNICAL item is excluded by the
filter, and the pixel (10, 10) lies inside its denormalized box, yet after
the pipeline run that pixel is no longer byte-identical to the input - the
padded fill rectangle of the overlapping processed TEXT item repainted it
with the white border mean. -/
theorem spec_c1_counterexample :
    cexTech.category = Category.TECHNICAL ∧
    ((denormalizeBox cexTech.box_2d (cexSurface.width : ℚ)
        (cexSurface.height : ℚ)).x ≤ 10 ∧
      (10 : ℚ) < (denormalizeBox cexTech.box_2d (cexSurface.width : ℚ)
        (cexSurface.height : ℚ)).x +
        (denormalizeBox cexTech.box_2d (cexSurface.width : ℚ)
          (cexSurface.height : ℚ)).w ∧
      (denormalizeBox cexTech.box_2d (cexSurface.width : ℚ)
        (cexSurface.height : ℚ)).y ≤ 10 ∧
      (10 : ℚ) < (denormalizeBox cexTech.box_2d (cexSurface.width : ℚ)
        (cexSurface.height : ℚ)).y +
        (denormalizeBox cexTech.box_2d (cexSurface.width : ℚ)
          (cexSurface.height : ℚ)).h) ∧
    (processCanvas mOne idRaster cexSurface true [cexText, cexTech]
      cfgW).1.pix 10 10 ≠ cexSurface.pix 10 10 := by decide
